import Mathlib

/-!
Verification development for the route-rs packet-processing runtime.

The definitions below are shallow embeddings of the runtime's link kernel:

* `processRunnerPoll` embeds `ProcessRunner::poll`
  (route-rs-runtime/src/link/primitive/process_link.rs).
* `ForkLink`, `ProcessLink`, `BlackHoleLink` embed the corresponding
  builders and their `build_link` methods; panics become `Except.error`.
* `blackHolePass` / `blackHoleRun` embed `BlackHole::poll`
  (route-rs-runtime/src/link/blackhole_link.rs).
* `ForkState` / `forkStep` embed `ForkIngressor::poll`
  (route-rs-runtime/src/link/fork_link.rs); the `task_park` module is not
  among the sources, so `park_and_notify`, `unpark_and_notify` and
  `die_and_notify` are modelled from the spec.
* `AEState` with `stepConsumer` / `providerPoll` embeds the
  `AsyncElementConsumer` / `AsyncElementProvider` pair
  (src/api/async_element.rs) as a micro-step transition system, so that
  interleavings of the two tasks can be examined.

Streams are embedded as finite scripts of pull results: an element of
`List (PullEv a)` is the sequence of outcomes successive upstream polls
deliver, and the end of the list is the stream's End.
-/

namespace RouteRs

set_option maxRecDepth 100000

/-- One upstream poll outcome: an item, or NotReady (`pending`).
End is the end of the script list. -/
inductive PullEv (α : Type) where
  | item (a : α)
  | pending
  deriving DecidableEq, Repr

/-- Result of polling a stream-valued link: `ready none` is End,
`ready (some b)` is an item, `notReady` asks the caller to suspend. -/
inductive PollRes (β : Type) where
  | ready (b : Option β)
  | notReady
  deriving DecidableEq, Repr

/-- Embedding of `ProcessRunner::poll`: repeatedly pull the upstream script
and apply the processor until it yields `some`, or the upstream yields
End (empty script) or NotReady.  Returns the poll result and the rest of
the upstream script. -/
def processRunnerPoll (f : α → Option β) : List (PullEv α) → PollRes β × List (PullEv α)
  | [] => (.ready none, [])
  | .pending :: rest => (.notReady, rest)
  | .item a :: rest =>
    match f a with
    | some b => (.ready (some b), rest)
    | none => processRunnerPoll f rest

/-- Drive `processRunnerPoll` until End, collecting emitted items.
`fuel` bounds the number of polls. -/
def processDrain (f : α → Option β) : Nat → List (PullEv α) → List β
  | 0, _ => []
  | Nat.succ fuel, evs =>
    match processRunnerPoll f evs with
    | (.ready none, _) => []
    | (.ready (some b), rest) => b :: processDrain f fuel rest
    | (.notReady, rest) => processDrain f fuel rest

/-- The items carried by an upstream script, in order. -/
def evItems : List (PullEv α) → List α
  | [] => []
  | .item a :: rest => a :: evItems rest
  | .pending :: rest => evItems rest

/-- Embedding of the `ProcessLink` builder
(route-rs-runtime/src/link/primitive/process_link.rs). -/
structure ProcessLink (α β : Type) where
  in_stream : Option (List (PullEv α))
  proc : Option (α → Option β)

/-- Embedding of `ProcessLink::new`. -/
def ProcessLink.new (α β : Type) : ProcessLink α β := ⟨none, none⟩

/-- Embedding of `ProcessLink::ingressor`. -/
def ProcessLink.ingressor (b : ProcessLink α β) (s : List (PullEv α)) : ProcessLink α β :=
  { b with in_stream := some s }

/-- Embedding of `ProcessLinkBuilder::processor`. -/
def ProcessLink.processor (b : ProcessLink α β) (p : α → Option β) : ProcessLink α β :=
  { b with proc := some p }

/-- The finished process link: the single egressor `ProcessRunner`. -/
structure ProcessRunner (α β : Type) where
  in_stream : List (PullEv α)
  processor : α → Option β

/-- Embedding of `ProcessLink::build_link`; the source's panics become
`Except.error`. -/
def ProcessLink.build_link (b : ProcessLink α β) : Except String (ProcessRunner α β) :=
  match b.in_stream with
  | none => .error "Cannot build link! Missing input streams"
  | some s =>
    match b.proc with
    | none => .error "Cannot build link! Missing processor"
    | some p => .ok ⟨s, p⟩

/-- Embedding of the `ForkLink` builder (route-rs-runtime/src/link/fork_link.rs). -/
structure ForkLink (P : Type) where
  in_stream : Option (List P)
  queue_capacity : Nat
  num_egressors : Option Nat

/-- Embedding of `ForkLink::new`: default queue capacity is 10. -/
def ForkLink.new (P : Type) : ForkLink P := ⟨none, 10, none⟩

/-- Embedding of `ForkLink::queue_capacity`: asserts the 1..=1000 range;
the assertion failure becomes `Except.error`. -/
def ForkLink.queueCapacity (b : ForkLink P) (c : Nat) : Except String (ForkLink P) :=
  if 1 ≤ c ∧ c ≤ 1000 then .ok { b with queue_capacity := c }
  else .error "queue_capacity must be in range 1..=1000"

/-- Embedding of `ForkLink::num_egressors`: asserts the 1..=1000 range. -/
def ForkLink.numEgressors (b : ForkLink P) (n : Nat) : Except String (ForkLink P) :=
  if 1 ≤ n ∧ n ≤ 1000 then .ok { b with num_egressors := some n }
  else .error "num_egressors must be in range 1..=1000"

/-- Embedding of `ForkLink::ingressor`. -/
def ForkLink.ingressor (b : ForkLink P) (s : List P) : ForkLink P :=
  { b with in_stream := some s }

/-- The finished fork link configuration produced by `build_link`. -/
structure ForkBuilt (P : Type) where
  in_stream : List P
  num_egressors : Nat
  queue_capacity : Nat

/-- Embedding of `ForkLink::build_link`; panics on unset fields become
`Except.error`, checked in source order. -/
def ForkLink.build_link (b : ForkLink P) : Except String (ForkBuilt P) :=
  match b.in_stream with
  | none => .error "Cannot build link! Missing input stream"
  | some s =>
    match b.num_egressors with
    | none => .error "Cannot build link! Missing number of num_egressors"
    | some n => .ok ⟨s, n, b.queue_capacity⟩

/-- Embedding of the `BlackHoleLink` builder
(route-rs-runtime/src/link/blackhole_link.rs). -/
structure BlackHoleLink (P : Type) where
  hole : Option (List (List P))

/-- Embedding of `BlackHoleLink::new`. -/
def BlackHoleLink.new (P : Type) : BlackHoleLink P := ⟨none⟩

/-- Embedding of `BlackHoleLink::ingressors`. -/
def BlackHoleLink.ingressors (_ : BlackHoleLink P) (streams : List (List P)) : BlackHoleLink P :=
  ⟨some streams⟩

/-- Embedding of `BlackHoleLink::build_link`. -/
def BlackHoleLink.build_link (b : BlackHoleLink P) : Except String (List (List P)) :=
  match b.hole with
  | none => .error "Cannot build link! Missing ingress streams"
  | some streams => .ok streams

/-- Boolean success test for `Except`. -/
def exOk : Except String α → Bool
  | .ok _ => true
  | .error _ => false

/-- Outcome of one pass of the `for` loop in `BlackHole::poll`: either some
ingress returned End during the pass (the poll returns `Ready(())` with the
given streams left over), or the pass consumed one item from every ingress
and the outer `loop` goes around again. -/
inductive PassResult (P : Type) where
  | ended (remaining : List (List P))
  | again (remaining : List (List P))
  deriving DecidableEq, Repr

/-- One pass of the `for` loop in `BlackHole::poll` over immediate (never
NotReady) ingress scripts, polled left to right: an empty script is an
ingress that returns End, a head item is consumed and discarded. -/
def blackHolePass : List (List P) → PassResult P
  | [] => .again []
  | [] :: rest => .ended ([] :: rest)
  | (_ :: s) :: rest =>
    match blackHolePass rest with
    | .ended rest' => .ended (s :: rest')
    | .again rest' => .again (s :: rest')

/-- Run `BlackHole::poll` to completion on immediate ingress scripts, with
`fuel` bounding the number of passes.  `some remaining` means the poll
returned `Ready(())` with the given unconsumed suffixes still on the
ingresses; `none` means the fuel ran out first. -/
def blackHoleRun : Nat → List (List P) → Option (List (List P))
  | 0, _ => none
  | Nat.succ fuel, streams =>
    match blackHolePass streams with
    | .ended remaining => some remaining
    | .again streams' => blackHoleRun fuel streams'

/-- Total number of items across a collection of ingress scripts. -/
def totalLen (streams : List (List P)) : Nat :=
  (streams.map List.length).sum

/-- States of the one-slot TaskPark rendezvous cell.

Modelled from the spec: the `task_park` module referenced by
fork_link.rs is not among the sources; spec section 3 lists the states
Empty, Parked(h), IndirectNotify and Dead.  Each queue has exactly one
producer and one consumer, so the parked handle needs no identity. -/
inductive TaskParkState where
  | Empty
  | Parked
  | IndirectNotify
  | Dead
  deriving DecidableEq, Repr

/-- Producer-side park of the TaskPark cell.

Modelled from the spec: `task_park::park_and_notify` is not among the
sources.  Per spec sections 3 and 5, parking installs the task handle;
if the cell held `IndirectNotify` (a wakeup raised while nobody was
parked) or is `Dead`, the task instead self-notifies.  Returns the new
cell state and whether the task self-notified. -/
def park_and_notify : TaskParkState → TaskParkState × Bool
  | .Empty => (.Parked, false)
  | .Parked => (.Parked, true)
  | .IndirectNotify => (.Empty, true)
  | .Dead => (.Dead, true)

/-- Consumer-side notify of the TaskPark cell.

Modelled from the spec: `task_park::unpark_and_notify` is not among the
sources.  Per spec section 5, a notify extracts and wakes a parked
handle; raised with nobody parked it leaves `IndirectNotify`.  Returns
the new cell state and whether a parked peer was woken. -/
def unpark_and_notify : TaskParkState → TaskParkState × Bool
  | .Empty => (.IndirectNotify, false)
  | .Parked => (.Empty, true)
  | .IndirectNotify => (.IndirectNotify, false)
  | .Dead => (.Dead, false)

/-- Terminal transition of the TaskPark cell.

Modelled from the spec: `task_park::die_and_notify` is not among the
sources.  Per spec sections 3 and 5, `Dead` is terminal and any parked
task is released.  Returns the new cell state and whether a parked peer
was woken. -/
def die_and_notify : TaskParkState → TaskParkState × Bool
  | .Parked => (.Dead, true)
  | _ => (.Dead, false)

/-- State of a Fork link: the remaining upstream input, the per-port
bounded queues (front = oldest; `none` is the End sentinel), the per-port
TaskPark cells, the queue capacity, the items each downstream consumer
has collected, and whether the ingressor's poll has returned `Ready`. -/
structure ForkState (P : Type) where
  input : List P
  queues : List (List (Option P))
  parks : List TaskParkState
  cap : Nat
  out : List (List P)
  fdone : Bool
  deriving DecidableEq, Repr

/-- Result of one iteration of the `loop` in `ForkIngressor::poll`. -/
inductive ForkRes where
  | blocked (port : Nat)
  | finished
  | progressed
  deriving DecidableEq, Repr

/-- Index of the first element satisfying the predicate, mirroring the
`for (port, to_egressor) in enumerate` scan in `ForkIngressor::poll`. -/
def firstIdxWhere (p : α → Bool) : List α → Option Nat
  | [] => none
  | x :: xs => if p x then some 0 else (firstIdxWhere p xs).map (· + 1)

/-- One iteration of the `loop` in `ForkIngressor::poll`: if some port's
queue is full, park against the first such port and return NotReady
without touching the upstream; otherwise pull one item — End finishes the
runnable, and an item is cloned onto every port's queue (notifying each
port's TaskPark) within this same iteration. -/
def forkStep (s : ForkState P) : ForkState P × ForkRes :=
  match firstIdxWhere (fun q => decide (q.length = s.cap)) s.queues with
  | some port =>
    ({ s with parks := s.parks.set port (park_and_notify (s.parks.getD port .Empty)).1 },
      .blocked port)
  | none =>
    match s.input with
    | [] => ({ s with fdone := true }, .finished)
    | p :: rest =>
      ({ s with
          input := rest,
          queues := s.queues.map (fun q => q ++ [some p]),
          parks := s.parks.map (fun tp => (unpark_and_notify tp).1) },
        .progressed)

/-- One step of the QueueEgressor consumer for port `i`.

Modelled from the spec: the `QueueEgressor` module referenced by
fork_link.rs is not among the sources.  Per spec section 4.9, on a pull
with a non-empty queue it emits the item and notifies the producer; the
End sentinel makes it Done.  An empty queue leaves the state unchanged
here (the consumer would park, which the Fork theorems do not need). -/
def forkConsume (i : Nat) (s : ForkState P) : ForkState P :=
  match s.queues.getD i [] with
  | some p :: rest =>
    { s with
        queues := s.queues.set i rest,
        parks := s.parks.set i (unpark_and_notify (s.parks.getD i .Empty)).1,
        out := s.out.set i (s.out.getD i [] ++ [p]) }
  | _ => s

/-- A scheduler action for the Fork system: run one producer loop
iteration, or let the consumer of port `i` pull once. -/
inductive ForkAct where
  | producer
  | consumer (i : Nat)
  deriving DecidableEq, Repr

/-- Run a Fork system trace. -/
def runFork : List ForkAct → ForkState P → ForkState P
  | [], s => s
  | .producer :: acts, s => runFork acts (forkStep s).1
  | .consumer i :: acts, s => runFork acts (forkConsume i s)

/-- Initial Fork system state after `build_link`: `n` empty queues of
capacity `cap`, all TaskParks Empty, nothing collected. -/
def forkInit (input : List P) (n cap : Nat) : ForkState P :=
  ⟨input, List.replicate n [], List.replicate n .Empty, cap, List.replicate n [], false⟩

/-- The packet items of a queue's contents, skipping the End sentinel. -/
def someItems : List (Option P) → List P
  | [] => []
  | some p :: rest => p :: someItems rest
  | none :: rest => someItems rest

/-- Sequential embedding of the first loop of `ForkIngressor::drop`:
`try_send(None)` on each egress queue in order; a full queue makes the
`try_send` fail and the drop panic (`Except.error`). -/
def trySendAll (cap : Nat) : List (List (Option P)) → Except String (List (List (Option P)))
  | [] => .ok []
  | q :: qs =>
    if q.length < cap then
      match trySendAll cap qs with
      | .ok qs' => .ok ((q ++ [none]) :: qs')
      | .error e => .error e
    else .error "Ingressor: Drop: try_send to egressor, fail"

/-- Embedding of `ForkIngressor::drop`: push the End sentinel into every
egress queue (panicking if one is full), then `die_and_notify` every
TaskPark. -/
def forkIngressorDrop (s : ForkState P) : Except String (ForkState P) :=
  match trySendAll s.cap s.queues with
  | .error e => .error e
  | .ok qs =>
    .ok { s with queues := qs, parks := s.parks.map (fun tp => (die_and_notify tp).1) }

/-- Program counter of the `AsyncElementConsumer` task inside its poll
loop.  `start` is the top of the loop (about to test fullness);
`parkAttempt` means fullness was already observed and the task is about
to install its handle; `finished` means the poll returned `Ready(())`. -/
inductive CPC where
  | start
  | parkAttempt
  | finished
  deriving DecidableEq, Repr

/-- State of an `AsyncElementLink` pair (src/api/async_element.rs):
the consumer task's remaining immediate input, the bounded `to_provider`
queue (front = oldest; `none` is the End sentinel), the two one-slot
handle channels (`parkC` = consumer's handle sits in `await_provider`,
`parkP` = provider's handle sits in `await_consumer`), the two tasks'
runnable flags, the items the provider has delivered downstream, whether
the provider has emitted End, and whether the consumer's destructor ran. -/
structure AEState (α : Type) where
  input : List α
  queue : List (Option α)
  cap : Nat
  parkC : Bool
  parkP : Bool
  cpc : CPC
  crun : Bool
  prun : Bool
  out : List α
  pdone : Bool
  cdropped : Bool
  deriving DecidableEq, Repr

/-- One micro-step of `AsyncElementConsumer::poll` with processor `f`.
At `start`: a full queue is observed (moving to `parkAttempt`), or End
finishes the poll, or one item is processed, pushed, and a parked
provider is woken — one loop iteration per step.  At `parkAttempt`: the
handle is installed in the one-slot `await_provider` channel; if the slot
is already occupied the send fails and the task self-notifies.  In both
park outcomes the poll returns NotReady. -/
def stepConsumer (f : α → α) (s : AEState α) : AEState α :=
  match s.cpc with
  | .finished => s
  | .parkAttempt =>
    if s.parkC then { s with crun := true, cpc := .start }
    else { s with parkC := true, crun := false, cpc := .start }
  | .start =>
    if s.queue.length = s.cap then { s with cpc := .parkAttempt }
    else
      match s.input with
      | [] => { s with cpc := .finished, crun := false }
      | p :: rest =>
        let s1 := { s with input := rest, queue := s.queue ++ [some (f p)] }
        if s.parkP then { s1 with parkP := false, prun := true } else s1

/-- Result of one `AsyncElementProvider::poll`: an item or End
(`ready`), NotReady, or the error arm the `Stream` signature allows. -/
inductive PRes (α : Type) where
  | ready (o : Option α)
  | notReady
  | err
  deriving DecidableEq, Repr

/-- One `AsyncElementProvider::poll`: `try_recv` on the queue.  A
dequeued item wakes a parked consumer and is returned; a dequeued `none`
sentinel or a disconnected (consumer-dropped) empty channel is End; an
empty channel parks the provider's handle in the one-slot
`await_consumer` channel, self-notifying if the slot is occupied. -/
def providerPoll (s : AEState α) : PRes α × AEState α :=
  match s.queue with
  | some p :: rest =>
    let s1 := { s with queue := rest, out := s.out ++ [p] }
    if s.parkC then (.ready (some p), { s1 with parkC := false, crun := true })
    else (.ready (some p), s1)
  | none :: rest =>
    (.ready none, { s with queue := rest, pdone := true, prun := false })
  | [] =>
    if s.cdropped then (.ready none, { s with pdone := true, prun := false })
    else if s.parkP then (.notReady, { s with prun := true })
    else (.notReady, { s with parkP := true, prun := false })

/-- Embedding of `AsyncElementConsumer::drop`: `try_send(None)` on the
queue — a full queue makes the send fail and the drop panic
(`Except.error`) — then notify the provider if its handle is parked. -/
def consumerDrop (s : AEState α) : Except String (AEState α) :=
  if s.queue.length < s.cap then
    let s1 := { s with queue := s.queue ++ [none], cdropped := true }
    .ok (if s.parkP then { s1 with parkP := false, prun := true } else s1)
  else .error "Consumer: Drop: try_send to_provider, fail"

/-- A scheduler choice: run one micro-step of the consumer task or one
poll of the provider task.  A task that is not runnable (parked, or
finished) is not polled, so its step is the identity. -/
inductive AEAct where
  | consumer
  | provider
  deriving DecidableEq, Repr

/-- Dispatch one scheduler choice. -/
def stepAE (f : α → α) : AEAct → AEState α → AEState α
  | .consumer, s => if s.crun then stepConsumer f s else s
  | .provider, s => if s.prun then (providerPoll s).2 else s

/-- Run an interleaving of the two tasks. -/
def runAE (f : α → α) : List AEAct → AEState α → AEState α
  | [], s => s
  | a :: acts, s => runAE f acts (stepAE f a s)

/-- Initial `AsyncElementLink` state with the queue pre-filled to
`queue`: both tasks runnable at the top of their polls, both park slots
empty. -/
def mkAE (input : List α) (queue : List (Option α)) (cap : Nat) : AEState α :=
  ⟨input, queue, cap, false, false, .start, true, true, [], false, false⟩

/-- Whether a completed BlackHole run left every ingress fully consumed. -/
def allDrained : Option (List (List P)) → Bool
  | none => false
  | some r => r.all List.isEmpty

/-- Invariant tying a Fork system state back to the original input: some
prefix `consumed` of the input has been pulled, and for every port the
items already collected downstream followed by the items still queued are
exactly that prefix — every port has received every consumed item, in
order, and no port has received a proper subset. -/
def ForkInv (input0 : List P) (n : Nat) (s : ForkState P) : Prop :=
  ∃ consumed,
    input0 = consumed ++ s.input ∧
    s.queues.length = n ∧ s.out.length = n ∧
    (∀ i < n, ∃ q o, s.queues[i]? = some q ∧ s.out[i]? = some o ∧
      o ++ someItems q = consumed) ∧
    (s.fdone = true → s.input = [])

/-- The packet sequence used by the repository's scenario tests. -/
def pkts : List Nat := [0, 1, 2, 420, 1337, 3, 4, 5, 6, 7, 8, 9]

/-- A concrete fair schedule for a three-port Fork over `pkts`: each
produced item is immediately collected on all three ports, and a final
producer iteration observes End. -/
def forkTrace3 : List ForkAct :=
  (List.replicate 12
    [ForkAct.producer, ForkAct.consumer 0, ForkAct.consumer 1, ForkAct.consumer 2]).flatten
    ++ [ForkAct.producer]

/-! Theorems.  Helper lemmas come first; the claim theorems are the ones
with claim identifiers in their doc comments. -/

/-- Identity processing with enough fuel drains the upstream script to
exactly its items, in order. -/
theorem processDrain_id (evs : List (PullEv α)) :
    ∀ fuel, evs.length < fuel →
      processDrain (fun x => some x) fuel evs = evItems evs := by
  induction evs with
  | nil =>
    intro fuel h
    cases fuel with
    | zero => omega
    | succ f => simp [processDrain, processRunnerPoll, evItems]
  | cons e rest ih =>
    intro fuel h
    cases fuel with
    | zero => omega
    | succ f =>
      cases e with
      | item a =>
        simp only [processDrain, processRunnerPoll, evItems]
        rw [ih f (by simp at h; omega)]
      | pending =>
        simp only [processDrain, processRunnerPoll, evItems]
        exact ih f (by simp at h; omega)

/-- C7: for every finite upstream script, a Process link with the
identity processor (`process(x) = Some(x)`) emits exactly the input
items, item for item and in order; in particular the scenario input
`[0,1,2,420,1337,3,4,5,6,7,8,9]` yields exactly that sequence. -/
theorem C7_process_identity_conservation :
    (∀ (α : Type) (evs : List (PullEv α)),
        processDrain (fun x => some x) (evs.length + 1) evs = evItems evs) ∧
    processDrain (fun x => some x) 13 (pkts.map PullEv.item) = pkts := by
  refine ⟨fun α evs => processDrain_id evs _ (Nat.lt_succ_self _), ?_⟩
  rfl

/-- C6: characterization of one `ProcessRunner::poll`.  The poll consumes
a run of items that the processor maps to `none` (each dropped silently,
producing no output and no error), and then either the upstream script is
exhausted (End is emitted), or the upstream yields NotReady (NotReady is
returned), or an item maps to `some b` (that value is emitted); the
unconsumed suffix is returned unchanged. -/
theorem C6_process_pull_semantics (f : α → Option β) (evs : List (PullEv α)) :
    ∃ (xs : List α) (rest : List (PullEv α)), (∀ x ∈ xs, f x = none) ∧
      ((processRunnerPoll f evs = (.ready none, rest) ∧
          evs = xs.map PullEv.item ∧ rest = []) ∨
       (processRunnerPoll f evs = (.notReady, rest) ∧
          evs = xs.map PullEv.item ++ PullEv.pending :: rest) ∨
       (∃ a b, f a = some b ∧ processRunnerPoll f evs = (.ready (some b), rest) ∧
          evs = xs.map PullEv.item ++ PullEv.item a :: rest)) := by
  induction evs with
  | nil =>
    exact ⟨[], [], by simp, Or.inl (by simp [processRunnerPoll])⟩
  | cons e rest ih =>
    cases e with
    | pending =>
      exact ⟨[], rest, by simp, Or.inr (Or.inl (by simp [processRunnerPoll]))⟩
    | item a =>
      cases h : f a with
      | some b =>
        refine ⟨[], rest, by simp, Or.inr (Or.inr ⟨a, b, h, ?_, by simp⟩)⟩
        simp [processRunnerPoll, h]
      | none =>
        obtain ⟨xs, rest', hnone, hcase⟩ := ih
        have hstep : processRunnerPoll f (PullEv.item a :: rest) = processRunnerPoll f rest := by
          simp [processRunnerPoll, h]
        refine ⟨a :: xs, rest', ?_, ?_⟩
        · intro x hx
          rcases List.mem_cons.mp hx with rfl | hx
          · exact h
          · exact hnone x hx
        · rcases hcase with ⟨h1, h2, h3⟩ | ⟨h1, h2⟩ | ⟨a', b, hab, h1, h2⟩
          · exact Or.inl ⟨by rw [hstep, h1], by simp [h2], h3⟩
          · exact Or.inr (Or.inl ⟨by rw [hstep, h1], by simp [h2]⟩)
          · exact Or.inr (Or.inr ⟨a', b, hab, by rw [hstep, h1], by simp [h2]⟩)

/-- C8: every builder missing a required field fails `build_link`
fatally; setting `queue_capacity` or `num_egressors` outside 1..=1000
fails; and `build_link` on a fully configured builder succeeds — for the
Fork, Process and BlackHole builders of the sources. -/
theorem C8_build_time_enforcement :
    (∀ (P : Type) (cap : Nat) (ne : Option Nat),
        exOk (ForkLink.build_link (⟨none, cap, ne⟩ : ForkLink P)) = false) ∧
    (∀ (P : Type) (s : List P) (cap : Nat),
        exOk (ForkLink.build_link ⟨some s, cap, none⟩) = false) ∧
    (∀ (P : Type) (s : List P) (cap n : Nat),
        exOk (ForkLink.build_link ⟨some s, cap, some n⟩) = true) ∧
    (∀ (P : Type) (b : ForkLink P) (c : Nat),
        exOk (b.queueCapacity c) = true ↔ 1 ≤ c ∧ c ≤ 1000) ∧
    (∀ (P : Type) (b : ForkLink P) (n : Nat),
        exOk (b.numEgressors n) = true ↔ 1 ≤ n ∧ n ≤ 1000) ∧
    (∀ (α β : Type) (p : α → Option β),
        exOk (ProcessLink.build_link (⟨none, some p⟩ : ProcessLink α β)) = false) ∧
    (∀ (α β : Type) (s : List (PullEv α)),
        exOk (ProcessLink.build_link (⟨some s, none⟩ : ProcessLink α β)) = false) ∧
    (∀ (α β : Type) (s : List (PullEv α)) (p : α → Option β),
        exOk (ProcessLink.build_link ⟨some s, some p⟩) = true) ∧
    (∀ (P : Type),
        exOk (BlackHoleLink.build_link (⟨none⟩ : BlackHoleLink P)) = false) ∧
    (∀ (P : Type) (ss : List (List P)),
        exOk (BlackHoleLink.build_link ⟨some ss⟩) = true) := by
  refine ⟨fun P cap ne => rfl, fun P s cap => rfl, fun P s cap n => rfl,
    fun P b c => ?_, fun P b n => ?_,
    fun α β p => rfl, fun α β s => rfl, fun α β s p => rfl,
    fun P => rfl, fun P ss => rfl⟩
  · by_cases h : 1 ≤ c ∧ c ≤ 1000 <;> simp [ForkLink.queueCapacity, h, exOk]
  · by_cases h : 1 ≤ n ∧ n ≤ 1000 <;> simp [ForkLink.numEgressors, h, exOk]

/-- Total item count distributes over cons. -/
theorem totalLen_cons (s : List P) (ss : List (List P)) :
    totalLen (s :: ss) = s.length + totalLen ss := by
  simp [totalLen]

/-- A pass that goes around again met no exhausted ingress: it consumed
exactly one item from every stream. -/
theorem blackHolePass_again_spec (ss ss' : List (List P))
    (h : blackHolePass ss = .again ss') :
    ss'.length = ss.length ∧ totalLen ss = totalLen ss' + ss.length ∧
      ∀ s ∈ ss, s ≠ [] := by
  induction ss generalizing ss' with
  | nil =>
    simp [blackHolePass] at h
    subst h
    simp [totalLen]
  | cons s rest ih =>
    cases s with
    | nil => simp [blackHolePass] at h
    | cons p t =>
      cases hrest : blackHolePass rest with
      | ended r => simp [blackHolePass, hrest] at h
      | again r =>
        simp [blackHolePass, hrest] at h
        subst h
        obtain ⟨hlen, htot, hne⟩ := ih r hrest
        refine ⟨by simp [hlen], ?_, ?_⟩
        · simp [totalLen_cons, htot]
          omega
        · intro x hx
          rcases List.mem_cons.mp hx with rfl | hx
          · simp
          · exact hne x hx

/-- A pass that ends leaves an exhausted ingress among the remains. -/
theorem blackHolePass_ended_mem (ss r : List (List P))
    (h : blackHolePass ss = .ended r) : [] ∈ r := by
  induction ss generalizing r with
  | nil => simp [blackHolePass] at h
  | cons s rest ih =>
    cases s with
    | nil =>
      simp [blackHolePass] at h
      subst h
      exact List.mem_cons_self _ _
    | cons p t =>
      cases hrest : blackHolePass rest with
      | ended r' =>
        simp [blackHolePass, hrest] at h
        subst h
        exact List.mem_cons_of_mem _ (ih r' hrest)
      | again r' => simp [blackHolePass, hrest] at h

/-- With at least one ingress, `BlackHole::poll` reaches `Ready` within
`totalLen + 1` passes. -/
theorem blackHoleRun_terminates (fuel : Nat) :
    ∀ ss : List (List P), ss ≠ [] → totalLen ss < fuel →
      (blackHoleRun fuel ss).isSome = true := by
  induction fuel with
  | zero => intro ss _ hl; omega
  | succ f ih =>
    intro ss hne hl
    cases hp : blackHolePass ss with
    | ended r => simp [blackHoleRun, hp]
    | again ss' =>
      obtain ⟨hlen, htot, _⟩ := blackHolePass_again_spec ss ss' hp
      have hpos : 0 < ss.length := List.length_pos.mpr hne
      have hne' : ss' ≠ [] := by
        intro h0
        rw [h0] at hlen
        simp at hlen
        omega
      simp only [blackHoleRun, hp]
      exact ih ss' hne' (by omega)

/-- Completed runs end because some ingress returned End. -/
theorem blackHoleRun_some_mem (fuel : Nat) :
    ∀ (ss r : List (List P)), blackHoleRun fuel ss = some r → [] ∈ r := by
  induction fuel with
  | zero => intro ss r h; simp [blackHoleRun] at h
  | succ f ih =>
    intro ss r h
    cases hp : blackHolePass ss with
    | ended r' =>
      simp [blackHoleRun, hp] at h
      subst h
      exact blackHolePass_ended_mem ss _ hp
    | again ss' =>
      simp [blackHoleRun, hp] at h
      exact ih ss' r h

/-- A single ingress is drained completely before the poll completes. -/
theorem blackHoleRun_single (s : List P) :
    blackHoleRun (s.length + 1) [s] = some [[]] := by
  induction s with
  | nil => rfl
  | cons p t ih => simpa [blackHoleRun, blackHolePass] using ih

/-- C1 counterexample: with ingresses `[]` and `[42]`, the BlackHole
runnable completes although the second ingress never returned End and its
item 42 was never consumed — items leak, refuting the claim that the poll
returns Ready exactly when every ingress has returned End and every item
has been consumed. -/
theorem C1_blackhole_counterexample :
    (blackHoleRun 2 [([] : List Nat), [42]]).isSome = true ∧
      allDrained (blackHoleRun 2 [([] : List Nat), [42]]) = false := by
  exact ⟨rfl, rfl⟩

/-- C1 (amended): for every nonempty collection of finite ingress
streams the BlackHole runnable completes within `totalLen + 1` passes;
completion happens because some ingress returned End (items on the other
ingresses may remain unconsumed); and with a single ingress the runnable
completes exactly after consuming every item of that ingress. -/
theorem C1_blackhole_amended :
    (∀ (P : Type) (ss : List (List P)), ss ≠ [] →
        (blackHoleRun (totalLen ss + 1) ss).isSome = true) ∧
    (∀ (P : Type) (fuel : Nat) (ss r : List (List P)),
        blackHoleRun fuel ss = some r → [] ∈ r) ∧
    (∀ s : List Nat, blackHoleRun (s.length + 1) [s] = some [[]]) := by
  exact ⟨fun P ss hne => blackHoleRun_terminates _ ss hne (Nat.lt_succ_self _),
    fun P fuel ss r h => blackHoleRun_some_mem fuel ss r h,
    fun s => blackHoleRun_single s⟩

/-- C1 amended witness at concrete inputs. -/
theorem C1_blackhole_amended_witness :
    (blackHoleRun (totalLen [[1], [2, 3]] + 1) [[1], [2, 3]]).isSome = true ∧
      [] ∈ [([] : List Nat), [42]] ∧
      blackHoleRun ([(5 : Nat)].length + 1) [[5]] = some [[]] := by
  refine ⟨C1_blackhole_amended.1 Nat [[1], [2, 3]] (by decide), ?_, ?_⟩
  · exact C1_blackhole_amended.2.1 Nat 2 [[], [42]] [[], [42]] (by rfl)
  · exact C1_blackhole_amended.2.2 [5]

/-- The packet items of a queue distribute over append. -/
theorem someItems_append (a b : List (Option P)) :
    someItems (a ++ b) = someItems a ++ someItems b := by
  induction a with
  | nil => rfl
  | cons x xs ih => cases x <;> simp [someItems, ih]

/-- If no element satisfies the predicate, the scan finds nothing. -/
theorem firstIdxWhere_eq_none (p : α → Bool) (l : List α)
    (h : ∀ x ∈ l, p x = false) : firstIdxWhere p l = none := by
  induction l with
  | nil => rfl
  | cons x xs ih =>
    have hx := h x (List.mem_cons_self x xs)
    have hxs := ih fun y hy => h y (List.mem_cons_of_mem x hy)
    simp [firstIdxWhere, hx, hxs]

/-- A found index points at an element satisfying the predicate. -/
theorem firstIdxWhere_some_spec (p : α → Bool) (l : List α) (i : Nat)
    (h : firstIdxWhere p l = some i) : ∃ x, l[i]? = some x ∧ p x = true := by
  induction l generalizing i with
  | nil => simp [firstIdxWhere] at h
  | cons x xs ih =>
    cases hx : p x with
    | true =>
      simp [firstIdxWhere, hx] at h
      exact ⟨x, by simp [← h], hx⟩
    | false =>
      simp [firstIdxWhere, hx] at h
      obtain ⟨j, hj, rfl⟩ := h
      obtain ⟨y, hy, hpy⟩ := ih j hj
      exact ⟨y, by simpa using hy, hpy⟩

/-- One producer iteration preserves the Fork conservation invariant. -/
theorem forkStep_inv (input0 : List P) (n : Nat) (s : ForkState P)
    (h : ForkInv input0 n s) : ForkInv input0 n (forkStep s).1 := by
  obtain ⟨consumed, hin, hql, hol, hports, hdone⟩ := h
  unfold forkStep
  cases hidx : firstIdxWhere (fun q => decide (q.length = s.cap)) s.queues with
  | some port =>
    exact ⟨consumed, hin, hql, hol, hports, hdone⟩
  | none =>
    cases hinput : s.input with
    | nil =>
      exact ⟨consumed, by simpa [hinput] using hin, hql, hol, hports, fun _ => rfl⟩
    | cons p rest =>
      refine ⟨consumed ++ [p], ?_, by simpa using hql, hol, ?_, ?_⟩
      · rw [hin, hinput]
        simp
      · intro i hi
        obtain ⟨q, o, hq, ho, hsum⟩ := hports i hi
        refine ⟨q ++ [some p], o, ?_, ho, ?_⟩
        · simp [List.getElem?_map, hq]
        · rw [someItems_append, ← List.append_assoc, hsum]
          rfl
      · intro hfd
        simp at hfd
        have := hdone hfd
        rw [this] at hinput
        exact absurd hinput (by simp)

/-- Reduction of `forkConsume` when the head of port `i` is an item. -/
theorem forkConsume_pop (i : Nat) (s : ForkState P) (p : P) (tl : List (Option P))
    (hq : s.queues.getD i [] = some p :: tl) :
    forkConsume i s =
      { s with
          queues := s.queues.set i tl,
          parks := s.parks.set i (unpark_and_notify (s.parks.getD i .Empty)).1,
          out := s.out.set i (s.out.getD i [] ++ [p]) } := by
  unfold forkConsume
  rw [hq]

/-- Reduction of `forkConsume` when port `i` has no item at its head. -/
theorem forkConsume_skip (i : Nat) (s : ForkState P)
    (hq : s.queues.getD i [] = [] ∨ ∃ tl, s.queues.getD i [] = none :: tl) :
    forkConsume i s = s := by
  unfold forkConsume
  rcases hq with hq | ⟨tl, hq⟩ <;> rw [hq]

/-- One consumer pull preserves the Fork conservation invariant. -/
theorem forkConsume_inv (input0 : List P) (n : Nat) (i : Nat) (s : ForkState P)
    (h : ForkInv input0 n s) : ForkInv input0 n (forkConsume i s) := by
  obtain ⟨consumed, hin, hql, hol, hports, hdone⟩ := h
  cases hq : s.queues.getD i [] with
  | nil =>
    rw [forkConsume_skip i s (Or.inl hq)]
    exact ⟨consumed, hin, hql, hol, hports, hdone⟩
  | cons hd tl =>
    cases hd with
    | none =>
      rw [forkConsume_skip i s (Or.inr ⟨tl, hq⟩)]
      exact ⟨consumed, hin, hql, hol, hports, hdone⟩
    | some p =>
      rw [forkConsume_pop i s p tl hq]
      refine ⟨consumed, hin, by simpa using hql, by simpa using hol, ?_, hdone⟩
      intro j hj
      obtain ⟨q, o, hqj, hoj, hsum⟩ := hports j hj
      by_cases hij : i = j
      · subst hij
        have hq2 : s.queues.getD i [] = some p :: tl := hq
        have hq' : q = some p :: tl := by
          rw [List.getD_eq_getElem?_getD, hqj] at hq2
          simpa using hq2
        have hlq : i < s.queues.length := by
          rw [hql]
          exact hj
        have hlo : i < s.out.length := by
          rw [hol]
          exact hj
        refine ⟨tl, o ++ [p], ?_, ?_, ?_⟩
        · simpa using List.getElem?_set_self hlq
        · have hod : s.out.getD i [] = o := by
            rw [List.getD_eq_getElem?_getD, hoj]
            rfl
          rw [hod]
          simpa using List.getElem?_set_self hlo
        · rw [← hsum, hq']
          simp [someItems]
      · refine ⟨q, o, ?_, ?_, hsum⟩
        · rw [List.getElem?_set_ne hij]
          exact hqj
        · rw [List.getElem?_set_ne hij]
          exact hoj

/-- Every trace of producer iterations and consumer pulls preserves the
Fork conservation invariant. -/
theorem runFork_inv (input0 : List P) (n : Nat) (acts : List ForkAct) :
    ∀ s : ForkState P, ForkInv input0 n s → ForkInv input0 n (runFork acts s) := by
  induction acts with
  | nil => exact fun s h => h
  | cons a rest ih =>
    intro s h
    cases a with
    | producer => exact ih _ (forkStep_inv input0 n s h)
    | consumer i => exact ih _ (forkConsume_inv input0 n i s h)

/-- The initial Fork state satisfies the conservation invariant. -/
theorem forkInit_inv (input : List P) (n cap : Nat) :
    ForkInv input n (forkInit input n cap) := by
  refine ⟨[], by simp [forkInit], by simp [forkInit], by simp [forkInit], ?_, by simp [forkInit]⟩
  intro i hi
  exact ⟨[], [], by simp [forkInit, List.getElem?_replicate_of_lt hi],
    by simp [forkInit, List.getElem?_replicate_of_lt hi], rfl⟩

/-- C3: for every Fork link with N ports and every finite input, along
any schedule of producer iterations and consumer pulls that ends with the
producer finished and all port queues drained, every port's consumer has
collected exactly the input sequence — each item exactly once per port,
in input order. -/
theorem C3_fork_duplication (P : Type) (input : List P) (n cap : Nat)
    (acts : List ForkAct)
    (hdone : (runFork acts (forkInit input n cap)).fdone = true)
    (hempty : ∀ i < n, (runFork acts (forkInit input n cap)).queues[i]? = some []) :
    ∀ i < n, (runFork acts (forkInit input n cap)).out[i]? = some input := by
  obtain ⟨consumed, hin, _, _, hports, hfdone⟩ :=
    runFork_inv input n acts (forkInit input n cap) (forkInit_inv input n cap)
  have hconsumed : input = consumed := by
    rw [hin, hfdone hdone]
    simp
  intro i hi
  obtain ⟨q, o, hq, ho, hsum⟩ := hports i hi
  have hqe : q = [] := by
    have := hempty i hi
    rw [hq] at this
    exact Option.some_inj.mp this
  rw [ho, hconsumed, ← hsum, hqe]
  simp [someItems]

/-- C3 witness: the S3 scenario — input `[0,1,2,420,1337,3,4,5,6,7,8,9]`,
three ports, capacity 10, a fair schedule — every egress collected the
exact input sequence. -/
theorem C3_fork_duplication_witness :
    (runFork forkTrace3 (forkInit pkts 3 10)).out[0]? = some pkts ∧
    (runFork forkTrace3 (forkInit pkts 3 10)).out[1]? = some pkts ∧
    (runFork forkTrace3 (forkInit pkts 3 10)).out[2]? = some pkts := by
  have h := C3_fork_duplication Nat pkts 3 10 forkTrace3 (by decide) (by decide)
  exact ⟨h 0 (by decide), h 1 (by decide), h 2 (by decide)⟩

/-- C4: in every iteration of the Fork producer's poll loop — if some
egress queue is full, the producer parks against the first full port and
returns NotReady with the upstream input, all queues and all outputs
untouched (and the parked-on port really is full); if no queue is full
and an item is pulled, that item is appended to every port's queue within
the same iteration, so no item reaches only a proper subset of ports. -/
theorem C4_fork_park_and_atomic_delivery :
    (∀ (P : Type) (s : ForkState P) (port : Nat),
        firstIdxWhere (fun q => decide (q.length = s.cap)) s.queues = some port →
        (forkStep s).2 = ForkRes.blocked port ∧
        (forkStep s).1.input = s.input ∧
        (forkStep s).1.queues = s.queues ∧
        (forkStep s).1.out = s.out ∧
        (forkStep s).1.parks =
          s.parks.set port (park_and_notify (s.parks.getD port .Empty)).1 ∧
        ∃ q, s.queues[port]? = some q ∧ q.length = s.cap) ∧
    (∀ (P : Type) (s : ForkState P) (p : P) (rest : List P),
        (∀ q ∈ s.queues, q.length ≠ s.cap) →
        s.input = p :: rest →
        (forkStep s).2 = ForkRes.progressed ∧
        (forkStep s).1.input = rest ∧
        (forkStep s).1.queues = s.queues.map (fun q => q ++ [some p])) := by
  constructor
  · intro P s port hidx
    obtain ⟨q, hq, hfull⟩ := firstIdxWhere_some_spec _ _ _ hidx
    refine ⟨?_, ?_, ?_, ?_, ?_, q, hq, by simpa using hfull⟩ <;>
      simp [forkStep, hidx]
  · intro P s p rest hnofull hin
    have hidx : firstIdxWhere (fun q => decide (q.length = s.cap)) s.queues = none :=
      firstIdxWhere_eq_none _ _ (fun q hq => by simpa using hnofull q hq)
    refine ⟨?_, ?_, ?_⟩ <;> simp [forkStep, hidx, hin]

/-- C4 witness: a state with port 1 full (capacity 1) parks on port 1
without pulling, and a state with free ports delivers 7 to both ports in
one iteration. -/
theorem C4_fork_park_and_atomic_delivery_witness :
    ((forkStep (⟨[7], [[], [some 5]], [.Empty, .Empty], 1, [[], []], false⟩ : ForkState Nat)).2 =
        ForkRes.blocked 1 ∧
      (forkStep (⟨[7], [[], [some 5]], [.Empty, .Empty], 1, [[], []], false⟩ : ForkState Nat)).1.input =
        [7] ∧
      (forkStep (⟨[7], [[], [some 5]], [.Empty, .Empty], 1, [[], []], false⟩ : ForkState Nat)).1.queues =
        [[], [some 5]] ∧
      (forkStep (⟨[7], [[], [some 5]], [.Empty, .Empty], 1, [[], []], false⟩ : ForkState Nat)).1.out =
        [[], []] ∧
      (forkStep (⟨[7], [[], [some 5]], [.Empty, .Empty], 1, [[], []], false⟩ : ForkState Nat)).1.parks =
        [TaskParkState.Empty, TaskParkState.Parked] ∧
      ∃ q, ([[], [some 5]] : List (List (Option Nat)))[1]? = some q ∧ q.length = 1) ∧
    ((forkStep (⟨[7], [[], []], [.Empty, .Empty], 1, [[], []], false⟩ : ForkState Nat)).2 =
        ForkRes.progressed ∧
      (forkStep (⟨[7], [[], []], [.Empty, .Empty], 1, [[], []], false⟩ : ForkState Nat)).1.input =
        [] ∧
      (forkStep (⟨[7], [[], []], [.Empty, .Empty], 1, [[], []], false⟩ : ForkState Nat)).1.queues =
        [[some 7], [some 7]]) := by
  constructor
  · have h := C4_fork_park_and_atomic_delivery.1 Nat
      ⟨[7], [[], [some 5]], [.Empty, .Empty], 1, [[], []], false⟩ 1 (by decide)
    exact h
  · have h := C4_fork_park_and_atomic_delivery.2 Nat
      ⟨[7], [[], []], [.Empty, .Empty], 1, [[], []], false⟩ 7 [] (by decide) (by decide)
    simpa using h

/-- Sending the sentinel into every non-full queue succeeds and appends
exactly one `none` to each. -/
theorem trySendAll_ok (cap : Nat) (qs : List (List (Option P)))
    (h : ∀ q ∈ qs, q.length < cap) :
    trySendAll cap qs = .ok (qs.map (fun q => q ++ [none])) := by
  induction qs with
  | nil => rfl
  | cons q rest ih =>
    have hq := h q (List.mem_cons_self q rest)
    have hrest := ih fun y hy => h y (List.mem_cons_of_mem q hy)
    simp [trySendAll, hq, hrest]

/-- C5 counterexample: a ForkIngressor dropped while one of its outgoing
queues is full panics in `try_send(None)` instead of pushing the End
sentinel — refuting the claim for every queue state. -/
theorem C5_drop_counterexample :
    exOk (forkIngressorDrop
      (⟨[], [[some 5]], [.Empty], 1, [[]], false⟩ : ForkState Nat)) = false := by
  rfl

/-- C5 (amended): when a runnable is dropped while every outgoing queue
has spare room, the Drop discipline holds: the ForkIngressor pushes one
End sentinel into every outgoing queue and takes every TaskPark to Dead
(waking a parked peer — `die_and_notify` yields Dead always and reports a
wakeup exactly for a parked cell), and the AsyncElementConsumer pushes
one End sentinel and wakes the provider if it was parked.  If some
outgoing queue is full the sentinel cannot be sent and the drop panics. -/
theorem C5_drop_amended :
    (∀ (P : Type) (s : ForkState P),
        (∀ q ∈ s.queues, q.length < s.cap) →
        ∃ s', forkIngressorDrop s = .ok s' ∧
          s'.queues = s.queues.map (fun q => q ++ [none]) ∧
          s'.parks = s.parks.map (fun tp => (die_and_notify tp).1)) ∧
    (∀ tp, (die_and_notify tp).1 = .Dead ∧
        ((die_and_notify tp).2 = true ↔ tp = .Parked)) ∧
    (∀ (α : Type) (s : AEState α),
        s.queue.length < s.cap →
        ∃ s', consumerDrop s = .ok s' ∧
          s'.queue = s.queue ++ [none] ∧
          (s.parkP = true → s'.prun = true ∧ s'.parkP = false)) := by
  refine ⟨?_, ?_, ?_⟩
  · intro P s h
    refine ⟨{ s with
        queues := s.queues.map (fun q => q ++ [none]),
        parks := s.parks.map (fun tp => (die_and_notify tp).1) }, ?_, rfl, rfl⟩
    simp [forkIngressorDrop, trySendAll_ok s.cap s.queues h]
  · intro tp
    cases tp <;> simp [die_and_notify]
  · intro α s h
    unfold consumerDrop
    rw [if_pos h]
    cases hp : s.parkP <;> simp [hp]

/-- C5 amended witness at concrete states. -/
theorem C5_drop_amended_witness :
    (∃ s', forkIngressorDrop
        (⟨[9], [[]], [.Parked], 1, [[]], false⟩ : ForkState Nat) = .ok s' ∧
      s'.queues = ([[]] : List (List (Option Nat))).map (fun q => q ++ [none]) ∧
      s'.parks = [TaskParkState.Parked].map (fun tp => (die_and_notify tp).1)) ∧
    ((die_and_notify .Parked).1 = .Dead ∧
      ((die_and_notify .Parked).2 = true ↔ TaskParkState.Parked = .Parked)) ∧
    (∃ s', consumerDrop (mkAE [9] [] 1 : AEState Nat) = .ok s' ∧
      s'.queue = (mkAE [9] [] 1 : AEState Nat).queue ++ [none] ∧
      ((mkAE [9] [] 1 : AEState Nat).parkP = true → s'.prun = true ∧ s'.parkP = false)) := by
  refine ⟨?_, C5_drop_amended.2.1 .Parked, ?_⟩
  · exact C5_drop_amended.1 Nat ⟨[9], [[]], [.Parked], 1, [[]], false⟩ (by decide)
  · exact C5_drop_amended.2.2 Nat (mkAE [9] [] 1) (by decide)

/-- C2 counterexample: capacity 1, queue holding one item.  The producer
observes full; the provider then pops the item (queue now non-full); the
producer completes its park.  The code installs the handle and returns
NotReady with no self-notify (`crun = false`) although the queue is no
longer full at that point — there is no re-check of fullness, refuting
step (3) of the claim. -/
theorem C2_producer_full_counterexample :
    (runAE (fun x => x) [.consumer, .provider, .consumer] (mkAE [1] [some 0] 1)).parkC = true ∧
    (runAE (fun x => x) [.consumer, .provider, .consumer] (mkAE [1] [some 0] 1)).crun = false ∧
    (runAE (fun x => x) [.consumer, .provider, .consumer] (mkAE [1] [some 0] 1)).queue = [] ∧
    (runAE (fun x => x) [.consumer, .provider, .consumer] (mkAE [1] [some 0] 1)).input = [1] := by
  exact ⟨rfl, rfl, rfl, rfl⟩

/-- C2 (amended): whenever the producer observes its bounded output
queue full during a poll it (1) observes full and moves to install,
touching neither the input nor the queue, then (2) attempts to install
its handle into the one-slot park cell: if the slot is free the handle is
installed and the task sleeps; if the slot is already occupied the
install fails and the task self-notifies instead — in either case the
poll returns NotReady without consuming any input item, and no re-check
of queue fullness is performed. -/
theorem C2_producer_full_amended :
    (∀ (α : Type) (f : α → α) (s : AEState α),
        s.cpc = .start → s.queue.length = s.cap →
        stepConsumer f s = { s with cpc := .parkAttempt }) ∧
    (∀ (α : Type) (f : α → α) (s : AEState α),
        s.cpc = .parkAttempt →
        (stepConsumer f s).input = s.input ∧
        (stepConsumer f s).queue = s.queue ∧
        (stepConsumer f s).cpc = .start ∧
        ((stepConsumer f s).crun = true ↔ s.parkC = true) ∧
        ((stepConsumer f s).parkC = true ↔ (s.parkC = true ∨ s.parkC = false))) := by
  constructor
  · intro α f s hpc hfull
    unfold stepConsumer
    rw [hpc, if_pos hfull]
  · intro α f s hpc
    unfold stepConsumer
    rw [hpc]
    cases hc : s.parkC <;> simp [hc]

/-- C2 amended witness at concrete states. -/
theorem C2_producer_full_amended_witness :
    stepConsumer (fun x => x) (mkAE [1] [some 0] 1 : AEState Nat) =
      { (mkAE [1] [some 0] 1 : AEState Nat) with cpc := .parkAttempt } ∧
    ((stepConsumer (fun x => x)
        (⟨[1], [some 0], 1, false, false, .parkAttempt, true, true, [], false, false⟩ : AEState Nat)).input =
      [1] ∧
      (stepConsumer (fun x => x)
        (⟨[1], [some 0], 1, false, false, .parkAttempt, true, true, [], false, false⟩ : AEState Nat)).queue =
      [some 0] ∧
      (stepConsumer (fun x => x)
        (⟨[1], [some 0], 1, false, false, .parkAttempt, true, true, [], false, false⟩ : AEState Nat)).cpc =
      .start ∧
      ((stepConsumer (fun x => x)
        (⟨[1], [some 0], 1, false, false, .parkAttempt, true, true, [], false, false⟩ : AEState Nat)).crun = true ↔
        (⟨[1], [some 0], 1, false, false, .parkAttempt, true, true, [], false, false⟩ : AEState Nat).parkC = true) ∧
      ((stepConsumer (fun x => x)
        (⟨[1], [some 0], 1, false, false, .parkAttempt, true, true, [], false, false⟩ : AEState Nat)).parkC = true ↔
        ((⟨[1], [some 0], 1, false, false, .parkAttempt, true, true, [], false, false⟩ : AEState Nat).parkC = true ∨
          (⟨[1], [some 0], 1, false, false, .parkAttempt, true, true, [], false, false⟩ : AEState Nat).parkC = false))) := by
  constructor
  · exact C2_producer_full_amended.1 Nat (fun x => x) (mkAE [1] [some 0] 1) rfl rfl
  · exact C2_producer_full_amended.2 Nat (fun x => x)
      ⟨[1], [some 0], 1, false, false, .parkAttempt, true, true, [], false, false⟩ rfl

/-- C9: a lost wakeup.  Capacity 1, one queued item, one more upstream.
Interleaving: the producer-side consumer task observes full; the provider
pops the item (pulling from the queue) and then, finding the queue empty,
parks; the consumer completes its park.  The run reaches a state where
the producer is parked although the queue is non-full, the provider is
parked, and no notification is pending — every further schedule leaves
the state unchanged, so the parked producer is never notified even though
the downstream consumer pulled.  This contradicts the backpressure
liveness the spec mandates. -/
theorem C9_lost_wakeup_deadlock :
    runAE (fun x => x) [.consumer, .provider, .provider, .consumer] (mkAE [1] [some 0] 1) =
      ⟨[1], [], 1, true, true, .start, false, false, [0], false, false⟩ ∧
    ∀ acts : List AEAct,
      runAE (fun x => x) acts
          (⟨[1], [], 1, true, true, .start, false, false, [0], false, false⟩ : AEState Nat) =
        ⟨[1], [], 1, true, true, .start, false, false, [0], false, false⟩ := by
  refine ⟨rfl, ?_⟩
  intro acts
  induction acts with
  | nil => rfl
  | cons a rest ih =>
    cases a with
    | consumer => simpa [runAE, stepAE] using ih
    | provider => simpa [runAE, stepAE] using ih

/-- C10: End and sentinel discipline of the AsyncElement pair.  When the
consumer's input yields End its poll finishes without touching the queue
(no sentinel from the poll); no consumer poll step ever enqueues the
`none` sentinel; the destructor enqueues exactly one `none` (when there
is room); and the provider maps both a dequeued `none` and a
disconnected empty channel to stream End (`ready none`), and never
returns the error arm. -/
theorem C10_end_and_sentinel_discipline :
    (∀ (α : Type) (f : α → α) (s : AEState α),
        s.cpc = .start → s.queue.length ≠ s.cap → s.input = [] →
        stepConsumer f s = { s with cpc := .finished, crun := false }) ∧
    (∀ (α : Type) (f : α → α) (s : AEState α),
        (stepConsumer f s).queue = s.queue ∨
          ∃ p, (stepConsumer f s).queue = s.queue ++ [some p]) ∧
    (∀ (α : Type) (s : AEState α),
        s.queue.length < s.cap →
        ∃ s', consumerDrop s = .ok s' ∧ s'.queue = s.queue ++ [none]) ∧
    (∀ (α : Type) (s : AEState α) (rest : List (Option α)),
        s.queue = none :: rest → (providerPoll s).1 = .ready none) ∧
    (∀ (α : Type) (s : AEState α),
        s.queue = [] → s.cdropped = true → (providerPoll s).1 = .ready none) ∧
    (∀ (α : Type) (s : AEState α), (providerPoll s).1 ≠ .err) := by
  refine ⟨?_, ?_, ?_, ?_, ?_, ?_⟩
  · intro α f s hpc hnf hin
    unfold stepConsumer
    rw [hpc, if_neg hnf, hin]
  · intro α f s
    unfold stepConsumer
    cases hpc : s.cpc
    · by_cases hfull : s.queue.length = s.cap
      · rw [if_pos hfull]
        exact Or.inl rfl
      · rw [if_neg hfull]
        cases hin : s.input with
        | nil => exact Or.inl rfl
        | cons p rest =>
          cases hp : s.parkP <;> simp [hp]
    · cases hc : s.parkC <;> simp [hc]
    · exact Or.inl rfl
  · intro α s h
    unfold consumerDrop
    rw [if_pos h]
    cases hp : s.parkP <;> simp [hp]
  · intro α s rest h
    simp [providerPoll, h]
  · intro α s h hd
    simp [providerPoll, h, hd]
  · intro α s
    unfold providerPoll
    cases hq : s.queue with
    | nil =>
      by_cases hd : s.cdropped = true
      · simp [hd]
      · simp only [Bool.not_eq_true] at hd
        cases hp : s.parkP <;> simp [hd, hp]
    | cons o rest =>
      cases o with
      | none => simp
      | some p => cases hc : s.parkC <;> simp [hc]

/-- C10 witness at concrete states. -/
theorem C10_end_and_sentinel_discipline_witness :
    stepConsumer (fun x => x) (mkAE ([] : List Nat) [] 1) =
      { mkAE ([] : List Nat) [] 1 with cpc := .finished, crun := false } ∧
    (∃ s', consumerDrop (mkAE ([] : List Nat) [] 1) = .ok s' ∧
      s'.queue = (mkAE ([] : List Nat) [] 1).queue ++ [none]) ∧
    (providerPoll (mkAE ([] : List Nat) [none] 1)).1 = .ready none ∧
    (providerPoll (⟨[], [], 1, false, false, .start, true, true, [], false, true⟩ : AEState Nat)).1 =
      .ready none := by
  refine ⟨?_, ?_, ?_, ?_⟩
  · exact C10_end_and_sentinel_discipline.1 Nat (fun x => x) (mkAE [] [] 1) rfl (by decide) rfl
  · exact C10_end_and_sentinel_discipline.2.2.1 Nat (mkAE [] [] 1) (by decide)
  · exact C10_end_and_sentinel_discipline.2.2.2.1 Nat (mkAE [] [none] 1) [] rfl
  · exact C10_end_and_sentinel_discipline.2.2.2.2.1 Nat
      ⟨[], [], 1, false, false, .start, true, true, [], false, true⟩ rfl rfl

end RouteRs
